import Mathlib

/-!
Verification of the ctparse time-rule builders (`ctparse/time/rules.py`) and the
naive-bayes scorer (`ctparse/nb_scorer.py`) against their natural-language
specification.

The embedding models:
* Python `datetime` values to minute precision (`DateTime`), with the proleptic
  Gregorian calendar, ordinal day numbers and `date.weekday()` (Monday = 0);
* the `dateutil.relativedelta` operations used by the rules: absolute
  replacement of day / month+day / hour+minute (clamping the day to the month
  length exactly as `dateutil` does), relative addition of days, months and
  years (again with day clamping), and the weekday-adjustment step
  (`relativedelta(weekday=w)` jumps forward `(7 - d.weekday() + w) % 7` days,
  applied after any relative `days`/`weeks` addition);
* the `Time`/`Interval` entity model and the rule builders translated from the
  source.

All fields finer than the minute are preserved unchanged by every modelled
operation and are equal on both sides of every comparison the rules perform, so
omitting them does not affect any comparison result.
-/

namespace Ctparse

/-- A Python `datetime` to minute precision. -/
structure DateTime where
  year : Nat
  month : Nat
  day : Nat
  hour : Nat
  minute : Nat
deriving DecidableEq

/-- Gregorian leap year, as in Python's `calendar.isleap`:
`year % 4 == 0 and (year % 100 != 0 or year % 400 == 0)`. -/
def isLeap (y : Nat) : Bool :=
  decide (y % 4 = 0 ∧ (y % 100 ≠ 0 ∨ y % 400 = 0))

/-- Number of days in a month (`calendar.monthrange(y, m)[1]`). -/
def daysInMonth (y m : Nat) : Nat :=
  if m = 2 then (if isLeap y then 29 else 28)
  else if m = 4 ∨ m = 6 ∨ m = 9 ∨ m = 11 then 30
  else 31

/-- Days in the months of year `y` strictly before month `m` (the cumulative
table CPython's `datetime` calls `_DAYS_BEFORE_MONTH`, shifted by one in leap
years from March on). -/
def daysBeforeMonth (y m : Nat) : Nat :=
  let L := if isLeap y then 1 else 0
  match m with
  | 2 => 31
  | 3 => 59 + L
  | 4 => 90 + L
  | 5 => 120 + L
  | 6 => 151 + L
  | 7 => 181 + L
  | 8 => 212 + L
  | 9 => 243 + L
  | 10 => 273 + L
  | 11 => 304 + L
  | 12 => 334 + L
  | _ => 0

/-- Days in the proleptic Gregorian calendar strictly before year `y`
(for `y ≥ 1` this is `365*(y-1) + (y-1)/4 - (y-1)/100 + (y-1)/400`). -/
def daysBeforeYear (y : Nat) : Nat :=
  365 * (y - 1) + (y - 1) / 4 + (y - 1) / 400 - (y - 1) / 100

/-- Python `date.toordinal()`: day number with 0001-01-01 ↦ 1. -/
def toOrdinal (d : DateTime) : Nat :=
  daysBeforeYear d.year + daysBeforeMonth d.year d.month + d.day

/-- Python `date.weekday()`: Monday = 0 … Sunday = 6.
`(toOrdinal + 6) % 7` agrees with `(toOrdinal - 1) % 7` since the ordinal is
at least 1 on valid dates. -/
def weekday (d : DateTime) : Nat :=
  (toOrdinal d + 6) % 7

/-- The date fields form a valid calendar date (as every Python `datetime`
does by construction). -/
def Valid (d : DateTime) : Prop :=
  1 ≤ d.year ∧ 1 ≤ d.month ∧ d.month ≤ 12 ∧ 1 ≤ d.day ∧
    d.day ≤ daysInMonth d.year d.month

instance (d : DateTime) : Decidable (Valid d) := by
  unfold Valid; exact inferInstance

/-- Python `datetime` comparison `a <= b`: lexicographic on
(year, month, day, hour, minute). -/
def DateTime.le (a b : DateTime) : Prop :=
  a.year < b.year ∨ a.year = b.year ∧
    (a.month < b.month ∨ a.month = b.month ∧
      (a.day < b.day ∨ a.day = b.day ∧
        (a.hour < b.hour ∨ a.hour = b.hour ∧ a.minute ≤ b.minute)))

instance (a b : DateTime) : Decidable (a.le b) := by
  unfold DateTime.le; exact inferInstance

/-- Comparison of the date parts only: `a.date() <= b.date()`. -/
def DateTime.dle (a b : DateTime) : Prop :=
  a.year < b.year ∨ a.year = b.year ∧
    (a.month < b.month ∨ a.month = b.month ∧ a.day ≤ b.day)

instance (a b : DateTime) : Decidable (a.dle b) := by
  unfold DateTime.dle; exact inferInstance

/-- Strict comparison of the date parts: `a.date() < b.date()`. -/
def DateTime.dlt (a b : DateTime) : Prop :=
  a.year < b.year ∨ a.year = b.year ∧
    (a.month < b.month ∨ a.month = b.month ∧ a.day < b.day)

instance (a b : DateTime) : Decidable (a.dlt b) := by
  unfold DateTime.dlt; exact inferInstance

/-- Advance a datetime by one calendar day (time of day unchanged). -/
def addOneDay (d : DateTime) : DateTime :=
  if d.day < daysInMonth d.year d.month then { d with day := d.day + 1 }
  else if d.month < 12 then { d with month := d.month + 1, day := 1 }
  else { d with year := d.year + 1, month := 1, day := 1 }

/-- Model of `d + timedelta(days = n)` (also `relativedelta(days=n)` / `weeks`,
which `dateutil` turns into a plain day count). -/
def addDays : DateTime → Nat → DateTime
  | d, 0 => d
  | d, n + 1 => addDays (addOneDay d) n

/-- Model of `d + relativedelta(months=1)`: increment the month (carrying into the
year) and clamp the day to the length of the resulting month, exactly as
`dateutil` does. -/
def addMonths1 (d : DateTime) : DateTime :=
  let y := if d.month = 12 then d.year + 1 else d.year
  let m := if d.month = 12 then 1 else d.month + 1
  { d with year := y, month := m, day := min (daysInMonth y m) d.day }

/-- Model of `d + relativedelta(years=1)`: increment the year and clamp the day
(Feb 29 → Feb 28), exactly as `dateutil` does. -/
def addYears1 (d : DateTime) : DateTime :=
  { d with year := d.year + 1,
           day := min (daysInMonth (d.year + 1) d.month) d.day }

/-- Model of `d + relativedelta(day=v)`: absolute replacement of the day, clamped to
the current month's length. -/
def setDay (d : DateTime) (v : Nat) : DateTime :=
  { d with day := min (daysInMonth d.year d.month) v }

/-- Model of `d + relativedelta(month=m, day=v)`: absolute replacement of month and
day, the day clamped to the length of month `m` in `d`'s year. -/
def setMonthDay (d : DateTime) (m v : Nat) : DateTime :=
  { d with month := m, day := min (daysInMonth d.year m) v }

/-- Model of `d + relativedelta(hour=h, minute=mi)`: absolute replacement of the
time of day, date unchanged. -/
def setHourMinute (d : DateTime) (h mi : Nat) : DateTime :=
  { d with hour := h, minute := mi }

/-- Model of `d + relativedelta(hour=h)`: absolute replacement of the hour only
(the minute is preserved). -/
def setHour (d : DateTime) (h : Nat) : DateTime :=
  { d with hour := h }

/-- Model of `d + relativedelta(weekday=w)` for a plain weekday number `w` (dateutil
`MO(+1)` behaviour): jump forward `(7 - d.weekday() + w) % 7` days, i.e. to
the next date with weekday `w`, staying put when `d` already has weekday
`w`. -/
def nextWeekday (d : DateTime) (w : Nat) : DateTime :=
  addDays d ((7 - weekday d + w) % 7)

/-- The `Time` entity: a partially specified calendar/clock point.  Each
field is independently optional; `DOW` is a day of week 0–6 (Monday = 0) and
`POD` a part-of-day tag. -/
structure Time where
  year : Option Nat := none
  month : Option Nat := none
  day : Option Nat := none
  hour : Option Nat := none
  minute : Option Nat := none
  DOW : Option Nat := none
  POD : Option String := none
deriving DecidableEq

/-- The `Interval` entity: a pair of optional `Time` endpoints. -/
structure Interval where
  t_from : Option Time
  t_to : Option Time
deriving DecidableEq

/-- Modelled from the spec: `Time.intersect(a, b, exclude=f)` of the missing
entity/types module merges two `Time` fragments field by field; each field
takes whichever side has it set, with `a` given precedence, except the named
`exclude` field which is always taken from `a`. -/
def Time.intersect (a b : Time) (exclude : String) : Time where
  year := if exclude = "year" then a.year else a.year.orElse fun _ => b.year
  month := if exclude = "month" then a.month else a.month.orElse fun _ => b.month
  day := if exclude = "day" then a.day else a.day.orElse fun _ => b.day
  hour := if exclude = "hour" then a.hour else a.hour.orElse fun _ => b.hour
  minute := if exclude = "minute" then a.minute else a.minute.orElse fun _ => b.minute
  DOW := if exclude = "DOW" then a.DOW else a.DOW.orElse fun _ => b.DOW
  POD := if exclude = "POD" then a.POD else a.POD.orElse fun _ => b.POD

/-- Shorthand for `Time(year=d.year, month=d.month, day=d.day)`. -/
def Time.ofDate (d : DateTime) : Time :=
  { year := some d.year, month := some d.month, day := some d.day }

/-- Shorthand for `Time(year=..., month=..., day=..., hour=..., minute=...)` built from `d`. -/
def Time.ofDateTime (d : DateTime) : Time :=
  { year := some d.year, month := some d.month, day := some d.day,
    hour := some d.hour, minute := some d.minute }

/-- Python's `s.startswith(pre)` as a character-list prefix check. -/
def listIsPre : List Char → List Char → Bool
  | _, [] => true
  | [], _ :: _ => false
  | c :: cs, p :: ps => c == p && listIsPre cs ps

/-- Whether `pat` occurs as a contiguous run inside `s` (character lists). -/
def listHasInfix (pat : List Char) : List Char → Bool
  | [] => listIsPre [] pat
  | c :: cs => listIsPre (c :: cs) pat || listHasInfix pat cs

/-- Python's substring test `pat in s`. -/
def strContains (s pat : String) : Bool :=
  listHasInfix pat.data s.data

/-- Python's `s.startswith(pre)`. -/
def strStartsWith (s pre : String) : Bool :=
  listIsPre s.data pre.data

/-- The `pod_hours` table of `rules.py`: part-of-day tag ↦ (from, to) hours. -/
def pod_hours : List (String × (Nat × Nat)) :=
  [("earlymorning", (0, 6)),
   ("morning", (5, 8)),
   ("latemorning", (8, 10)),
   ("earlybeforenoon", (8, 11)),
   ("beforenoon", (9, 12)),
   ("latebeforenoon", (10, 13)),
   ("earlynoon", (11, 13)),
   ("noon", (12, 14)),
   ("latenoon", (13, 15)),
   ("earlyafternoon", (13, 15)),
   ("afternoon", (14, 16)),
   ("lateafternoon", (15, 17)),
   ("earlyevening", (16, 18)),
   ("evening", (17, 19)),
   ("lateevening", (18, 20)),
   ("earlynight", (18, 20)),
   ("night", (19, 22)),
   ("latenight", (20, 23))]

/-- Rule `ruleLatentDOM`: ground a bare day-of-month to the next occurrence at or
after `ts`, rolling one month forward when `ts + relativedelta(day=dom.day)`
is `<= ts`.  The `isDOM` predicate guard guarantees the `day` field is set;
an entity without it produces no result. -/
def ruleLatentDOM (ts : DateTime) (dom : Time) : Option Time :=
  match dom.day with
  | none => none
  | some d =>
    let dm := setDay ts d
    let dm := if dm.le ts then addMonths1 dm else dm
    some (Time.ofDate dm)

/-- Rule `ruleLatentDOW`: ground a bare day-of-week to the next occurrence at or
after `ts`, rolling one week forward when `ts + relativedelta(weekday=w)` is
`<= ts`; the date is merged with the original entity via
`Time.intersect(..., exclude='DOW')`. -/
def ruleLatentDOW (ts : DateTime) (dow : Time) : Option Time :=
  match dow.DOW with
  | none => none
  | some w =>
    let dm := nextWeekday ts w
    let dm := if dm.le ts then addDays dm 7 else dm
    some (Time.intersect (Time.ofDate dm) dow "DOW")

/-- Rule `ruleLatentDOY`: ground a month+day (no year) to the next occurrence at
or after `ts`, rolling one year forward when
`ts + relativedelta(month=doy.month, day=doy.day)` is `<= ts`. -/
def ruleLatentDOY (ts : DateTime) (doy : Time) : Option Time :=
  match doy.month, doy.day with
  | some m, some d =>
    let dm := setMonthDay ts m d
    let dm := if dm.le ts then addYears1 dm else dm
    some (Time.ofDate dm)
  | _, _ => none

/-- Rule `ruleLatentTOD`: ground a bare time of day to the next occurrence at or
after `ts`, rolling one day forward when
`ts + relativedelta(hour=tod.hour, minute=tod.minute or 0)` is `<= ts`. -/
def ruleLatentTOD (ts : DateTime) (tod : Time) : Option Time :=
  match tod.hour with
  | none => none
  | some h =>
    let dm := setHourMinute ts h (tod.minute.getD 0)
    let dm := if dm.le ts then addDays dm 1 else dm
    some (Time.ofDateTime dm)

/-- Rule `ruleLatentPOD`: ground a bare part of day to the next day whose
`pod_hours` start hour is after `ts` (`ts + relativedelta(hour=h_from)`
keeps `ts`'s minute), preserving the POD tag. -/
def ruleLatentPOD (ts : DateTime) (pod : Time) : Option Time :=
  match pod.POD with
  | none => none
  | some p =>
    match pod_hours.lookup p with
    | none => none
    | some (hFrom, _) =>
      let tFrom := setHour ts hFrom
      let tFrom := if tFrom.le ts then addDays tFrom 1 else tFrom
      some { year := some tFrom.year, month := some tFrom.month,
             day := some tFrom.day, POD := some p }

/-- Rule `ruleNextDOW`: "next ⟨weekday⟩" is
`ts + relativedelta(weekday=dow.DOW, weeks=1)` — `dateutil` first adds the
7 days, then moves forward to the next date with the requested weekday. -/
def ruleNextDOW (ts : DateTime) (dow : Time) : Option Time :=
  match dow.DOW with
  | none => none
  | some w =>
    let dm := nextWeekday (addDays ts 7) w
    some (Time.intersect (Time.ofDate dm) dow "DOW")

/-- Rule `ruleTODPOD`: combine a time of day with a part of day.  An hour `<= 12`
with an afternoon/evening/night tag is shifted by 12; an hour `> 12` with a
beforenoon/morning tag is a rejected combination (`None`); otherwise the
hour is kept.  The minute is always `tod.minute`. -/
def ruleTODPOD (ts : DateTime) (tod pod : Time) : Option Time :=
  match tod.hour, pod.POD with
  | some h, some p =>
    if h ≤ 12 ∧ (strContains p "afternoon" ∨ strContains p "evening" ∨
                 strContains p "night") then
      some { hour := some (h + 12), minute := tod.minute }
    else if 12 < h ∧ (strContains p "beforenoon" ∨ strContains p "morning") then
      none
    else
      some { hour := some h, minute := tod.minute }
  | _, _ => none

/-- Rule `rulePODTOD`: delegates to `ruleTODPOD` with the two entities swapped. -/
def rulePODTOD (ts : DateTime) (pod tod : Time) : Option Time :=
  ruleTODPOD ts tod pod

/-- Rule `ruleHHMM`: build a time of day from an `hh[:mm] [am|pm]` match.  The
builder is given the hour, the optional minute group, and the optional
`ampm` group (a string starting with `a` or `p` — the greedy `\s*` before
the group has consumed any whitespace). -/
def ruleHHMM (ts : DateTime) (hour : Nat) (minute : Option Nat)
    (ampm : Option String) : Option Time :=
  let t : Time := { hour := some hour, minute := some (minute.getD 0) }
  match ampm with
  | none => some t
  | some s =>
    if strStartsWith s "a" ∧ hour ≤ 12 then some t
    else if strStartsWith s "p" ∧ hour ≤ 12 then
      some { hour := some (hour + 12), minute := t.minute }
    else
      some t

/-- Rule `ruleTODTOD`: join two times of day into an `Interval`, mirroring the
guard conditions of the source line by line. -/
def ruleTODTOD (ts : DateTime) (t1 t2 : Time) : Option Interval :=
  match t1.hour, t2.hour with
  | some h1, some h2 =>
    if h2 < h1 then none
    else if h1 = h2 then
      match t1.minute, t2.minute with
      | some m1, some m2 =>
        if m2 ≤ m1 then none else some { t_from := some t1, t_to := some t2 }
      | none, some _ => none
      | none, none => none
      | some _, none => some { t_from := some t1, t_to := some t2 }
    else some { t_from := some t1, t_to := some t2 }
  | _, _ => none

/-- Rule `ruleDateDate`: join two full dates into an `Interval`, rejecting the
pair unless the first is strictly earlier. -/
def ruleDateDate (ts : DateTime) (d1 d2 : Time) : Option Interval :=
  match d1.year, d1.month, d1.day, d2.year, d2.month, d2.day with
  | some y1, some m1, some a1, some y2, some m2, some a2 =>
    if y2 < y1 then none
    else if y1 = y2 ∧ m2 < m1 then none
    else if y1 = y2 ∧ m1 = m2 ∧ a2 ≤ a1 then none
    else some { t_from := some d1, t_to := some d2 }
  | _, _, _, _, _, _ => none

/-- Rule `ruleDateTimeDateTime`: join two full date-times into an `Interval`,
rejecting the pair unless the first is strictly earlier. -/
def ruleDateTimeDateTime (ts : DateTime) (d1 d2 : Time) : Option Interval :=
  match d1.year, d1.month, d1.day, d1.hour, d1.minute,
        d2.year, d2.month, d2.day, d2.hour, d2.minute with
  | some y1, some m1, some a1, some h1, some i1,
    some y2, some m2, some a2, some h2, some i2 =>
    if y2 < y1 then none
    else if y1 = y2 ∧ m2 < m1 then none
    else if y1 = y2 ∧ m1 = m2 ∧ a2 < a1 then none
    else if y1 = y2 ∧ m1 = m2 ∧ a1 = a2 ∧ h2 < h1 then none
    else if y1 = y2 ∧ m1 = m2 ∧ a1 = a2 ∧ h1 = h2 ∧ i2 ≤ i1 then none
    else some { t_from := some d1, t_to := some d2 }
  | _, _, _, _, _, _, _, _, _, _ => none

/-- A `Match`/`Production`: a span `[mstart, mend)` over the input text. -/
structure Production where
  mstart : Nat
  mend : Nat
deriving DecidableEq

/-- A `PartialParse`: its ordered productions and the sequence of rule
identifiers applied to reach it (the scorer's feature vector). -/
structure PartialParse where
  prod : List Production
  rules : List String
deriving DecidableEq

/-- The quantity `prod[-1].mend - prod[0].mstart` of a parse, the
covered-character count used by `NaiveBayesScorer.score`. -/
def coveredChars (pp : PartialParse) : Nat :=
  (pp.prod.getLastD ⟨0, 0⟩).mend - (pp.prod.headD ⟨0, 0⟩).mstart

/-- Modelled from the spec: the missing entity/types module gives each
resolved final entity an associated textual span, and `len` of a resolved
`Time`/`Interval` is the covered-character count of that span. -/
structure FinalProd where
  mstart : Nat
  mend : Nat
deriving DecidableEq

/-- Python `len(prod)` of a resolved final production. -/
def FinalProd.len (p : FinalProd) : Nat := p.mend - p.mstart

/-- Scorer `NaiveBayesScorer`: the trained scikit-learn estimator is opaque to the
scorer, which only calls `predict_log_proba` on one feature vector and reads
the two class log-probabilities `(log P(y=-1|X), log P(y=1|X))`. -/
structure NaiveBayesScorer where
  predictLogProba : List String → ℝ × ℝ

/-- The function `_feature_extractor(txt, ts, pp) = [str(r) for r in
pp.rules]` (the rule identifiers are already strings). -/
def featureExtractor (txt : String) (ts : DateTime) (pp : PartialParse) :
    List String :=
  pp.rules

/-- Method `NaiveBayesScorer.score`: coverage penalty
`log(covered_chars / len(txt))` plus the model log-odds. -/
noncomputable def NaiveBayesScorer.score (M : NaiveBayesScorer) (txt : String)
    (ts : DateTime) (pp : PartialParse) : ℝ :=
  let lenScore := Real.log ((coveredChars pp : ℝ) / (txt.length : ℝ))
  let X := featureExtractor txt ts pp
  let pred := M.predictLogProba X
  let modelScore := pred.2 - pred.1
  modelScore + lenScore

/-- Method `NaiveBayesScorer.score_final`: as `score`, but the coverage penalty is
`log(len(prod) / len(txt))` for the resolved final production `prod`. -/
noncomputable def NaiveBayesScorer.score_final (M : NaiveBayesScorer)
    (txt : String) (ts : DateTime) (pp : PartialParse) (p : FinalProd) : ℝ :=
  let lenScore := Real.log ((FinalProd.len p : ℝ) / (txt.length : ℝ))
  let X := featureExtractor txt ts pp
  let pred := M.predictLogProba X
  let modelScore := pred.2 - pred.1
  modelScore + lenScore

/-! ### Lemmas about the calendar arithmetic -/

theorem daysInMonth_pos (y m : Nat) : 1 ≤ daysInMonth y m := by
  unfold daysInMonth
  split
  · split <;> omega
  · split <;> omega

theorem daysInMonth_le (y m : Nat) : daysInMonth y m ≤ 31 := by
  unfold daysInMonth
  split
  · split <;> omega
  · split <;> omega

theorem daysBeforeMonth_succ (y m : Nat) (hm1 : 1 ≤ m) (hm2 : m ≤ 11) :
    daysBeforeMonth y (m + 1) = daysBeforeMonth y m + daysInMonth y m := by
  interval_cases m <;> cases h : isLeap y <;>
    simp [daysBeforeMonth, daysInMonth, h]

theorem daysBeforeMonth_year (y : Nat) :
    daysBeforeMonth y 12 + daysInMonth y 12 =
      365 + (if isLeap y then 1 else 0) := by
  cases h : isLeap y <;>
    simp [daysBeforeMonth, daysInMonth, h]

set_option maxHeartbeats 1000000 in
theorem daysBeforeYear_succ (y : Nat) (hy : 1 ≤ y) :
    daysBeforeYear (y + 1) = daysBeforeYear y + 365 + (if isLeap y then 1 else 0) := by
  cases hB : isLeap y with
  | false =>
    have hP : ¬(y % 4 = 0 ∧ (y % 100 ≠ 0 ∨ y % 400 = 0)) := by
      simpa [isLeap] using hB
    unfold daysBeforeYear
    simp only [Bool.false_eq_true, if_false]
    omega
  | true =>
    have hP : y % 4 = 0 ∧ (y % 100 ≠ 0 ∨ y % 400 = 0) := by
      simpa [isLeap] using hB
    unfold daysBeforeYear
    simp only [if_true]
    omega

theorem addOneDay_valid (d : DateTime) (h : Valid d) : Valid (addOneDay d) := by
  have hp1 := daysInMonth_pos (d.year + 1) 1
  have hp2 := daysInMonth_pos d.year (d.month + 1)
  unfold Valid at *
  unfold addOneDay
  by_cases h1 : d.day < daysInMonth d.year d.month
  · rw [if_pos h1]; dsimp only; omega
  · rw [if_neg h1]
    by_cases h2 : d.month < 12
    · rw [if_pos h2]; dsimp only; omega
    · rw [if_neg h2]; dsimp only; omega

theorem addOneDay_toOrdinal (d : DateTime) (h : Valid d) :
    toOrdinal (addOneDay d) = toOrdinal d + 1 := by
  obtain ⟨hy, hm1, hm2, hd1, hd2⟩ := h
  unfold addOneDay
  by_cases h1 : d.day < daysInMonth d.year d.month
  · rw [if_pos h1]; unfold toOrdinal; dsimp only; omega
  · rw [if_neg h1]
    by_cases h2 : d.month < 12
    · rw [if_pos h2]; unfold toOrdinal; dsimp only
      have hs := daysBeforeMonth_succ d.year d.month hm1 (by omega)
      omega
    · rw [if_neg h2]; unfold toOrdinal; dsimp only
      have h12 : d.month = 12 := by omega
      have hdy := daysBeforeYear_succ d.year hy
      have hdm := daysBeforeMonth_year d.year
      have hb1 : daysBeforeMonth (d.year + 1) 1 = 0 := rfl
      rw [h12] at hd2 ⊢
      rw [h12] at h1
      omega

theorem addDays_toOrdinal (n : Nat) (d : DateTime) (h : Valid d) :
    toOrdinal (addDays d n) = toOrdinal d + n ∧ Valid (addDays d n) := by
  induction n generalizing d with
  | zero => exact ⟨rfl, h⟩
  | succ k ih =>
    have h1 := addOneDay_toOrdinal d h
    have h2 := addOneDay_valid d h
    have := ih (addOneDay d) h2
    exact ⟨by simpa [addDays, h1, Nat.add_assoc, Nat.add_comm 1 k] using this.1,
           by simpa [addDays] using this.2⟩

theorem weekday_addDays (n : Nat) (d : DateTime) (h : Valid d) :
    weekday (addDays d n) = (weekday d + n) % 7 := by
  have := (addDays_toOrdinal n d h).1
  unfold weekday
  rw [this]
  omega

theorem addOneDay_hour (d : DateTime) : (addOneDay d).hour = d.hour := by
  unfold addOneDay
  split
  · rfl
  · split <;> rfl

theorem addOneDay_minute (d : DateTime) : (addOneDay d).minute = d.minute := by
  unfold addOneDay
  split
  · rfl
  · split <;> rfl

theorem addDays_hour (n : Nat) (d : DateTime) : (addDays d n).hour = d.hour := by
  induction n generalizing d with
  | zero => rfl
  | succ k ih => simpa [addDays, addOneDay_hour] using ih (addOneDay d)

theorem addDays_minute (n : Nat) (d : DateTime) : (addDays d n).minute = d.minute := by
  induction n generalizing d with
  | zero => rfl
  | succ k ih => simpa [addDays, addOneDay_minute] using ih (addOneDay d)

theorem DateTime.le_refl (d : DateTime) : d.le d := by
  unfold DateTime.le; omega

theorem dle_refl (d : DateTime) : d.dle d := by
  unfold DateTime.dle; omega

theorem dlt_addOneDay (d : DateTime) : d.dlt (addOneDay d) := by
  unfold DateTime.dlt addOneDay
  split
  · dsimp only; omega
  · split <;> dsimp only <;> omega

theorem dlt_dle (a b : DateTime) (h : a.dlt b) : a.dle b := by
  unfold DateTime.dlt at h; unfold DateTime.dle; omega

theorem dlt_trans_dle (a b c : DateTime) (h1 : a.dlt b) (h2 : b.dle c) : a.dlt c := by
  unfold DateTime.dlt at *; unfold DateTime.dle at h2; omega

theorem dle_trans (a b c : DateTime) (h1 : a.dle b) (h2 : b.dle c) : a.dle c := by
  unfold DateTime.dle at *; omega

theorem dle_addDays (n : Nat) (d : DateTime) : d.dle (addDays d n) := by
  induction n generalizing d with
  | zero => exact dle_refl d
  | succ k ih =>
    exact dle_trans d (addOneDay d) (addDays (addOneDay d) k)
      (dlt_dle _ _ (dlt_addOneDay d)) (ih (addOneDay d))

theorem dlt_addDays_succ (k : Nat) (d : DateTime) : d.dlt (addDays d (k + 1)) := by
  exact dlt_trans_dle d (addOneDay d) (addDays (addOneDay d) k)
    (dlt_addOneDay d) (dle_addDays k (addOneDay d))

theorem not_le_of_dlt (a b : DateTime) (h : a.dlt b)
    (hh : b.hour = a.hour) (hm : b.minute = a.minute) : ¬ b.le a := by
  unfold DateTime.dlt at h; unfold DateTime.le; omega

theorem weekday_lt (d : DateTime) : weekday d < 7 :=
  Nat.mod_lt _ (by norm_num)

/-- Reduction of `ruleLatentDOW` on an entity whose `DOW` field is set but
whose other fields are empty (the dated result merged with such an entity by
`intersect(..., exclude='DOW')` is the dated result itself). -/
theorem ruleLatentDOW_eq (ts : DateTime) (w : Nat) :
    ruleLatentDOW ts { DOW := some w } =
      some (Time.ofDate (if (nextWeekday ts w).le ts
                         then addDays (nextWeekday ts w) 7
                         else nextWeekday ts w)) := rfl

/-! ### The claims -/

/-- C1: for every reference timestamp `ts` and every `Time` entity with only
the day-of-week field set (weekday `w`), `ruleLatentDOW` returns a fully
dated `Time` whose weekday equals `w` and whose date is at or after `ts`,
rolling forward exactly one week (to `ts`'s date + 7 days) when the naive
target date equals `ts`'s date, i.e. when `w` is `ts`'s own weekday. -/
theorem ruleLatentDOW_grounding (ts : DateTime) (w : Nat)
    (hv : Valid ts) (hw : w < 7) :
    ∃ g : DateTime,
      ruleLatentDOW ts { DOW := some w } = some (Time.ofDate g) ∧
      weekday g = w ∧
      ts.dle g ∧
      (weekday ts = w → g = addDays ts 7) := by
  have hred := ruleLatentDOW_eq ts w
  have hwd : weekday ts < 7 := weekday_lt ts
  have hnw : nextWeekday ts w = addDays ts ((7 - weekday ts + w) % 7) := rfl
  by_cases h0 : weekday ts = w
  · have hk0 : (7 - weekday ts + w) % 7 = 0 := by omega
    have hts : nextWeekday ts w = ts := by rw [hnw, hk0]; rfl
    refine ⟨addDays ts 7, ?_, ?_, dle_addDays 7 ts, fun _ => rfl⟩
    · rw [hred, hts, if_pos (DateTime.le_refl ts)]
    · rw [weekday_addDays 7 ts hv, h0]
      omega
  · have hkpos : (7 - weekday ts + w) % 7 ≠ 0 := by omega
    obtain ⟨j, hj⟩ : ∃ j, (7 - weekday ts + w) % 7 = j + 1 :=
      ⟨(7 - weekday ts + w) % 7 - 1, by omega⟩
    have hdlt : ts.dlt (addDays ts ((7 - weekday ts + w) % 7)) := by
      rw [hj]; exact dlt_addDays_succ j ts
    have hnle : ¬ (addDays ts ((7 - weekday ts + w) % 7)).le ts :=
      not_le_of_dlt ts _ hdlt (addDays_hour _ ts) (addDays_minute _ ts)
    refine ⟨addDays ts ((7 - weekday ts + w) % 7), ?_, ?_, ?_, fun hc => absurd hc h0⟩
    · rw [hred, hnw, if_neg hnle]
    · rw [weekday_addDays _ ts hv]
      omega
    · exact dle_addDays _ ts

/-- C1 witness: a concrete instance (2022-03-10 12:00, a Thursday, target
weekday Monday) discharging the hypotheses of `ruleLatentDOW_grounding`. -/
theorem ruleLatentDOW_grounding_witness :
    Valid ⟨2022, 3, 10, 12, 0⟩ ∧ 0 < 7 ∧
      ∃ g : DateTime,
        ruleLatentDOW ⟨2022, 3, 10, 12, 0⟩ { DOW := some 0 } = some (Time.ofDate g) ∧
        weekday g = 0 ∧
        DateTime.dle ⟨2022, 3, 10, 12, 0⟩ g ∧
        (weekday ⟨2022, 3, 10, 12, 0⟩ = 0 → g = addDays ⟨2022, 3, 10, 12, 0⟩ 7) :=
  ⟨by decide, by decide, ruleLatentDOW_grounding ⟨2022, 3, 10, 12, 0⟩ 0 (by decide) (by decide)⟩

/-- C2: every latent-grounding rule (`ruleLatentDOM`, `ruleLatentDOY`,
`ruleLatentTOD`, `ruleLatentPOD`) compares the naive next occurrence to the
reference instant with a non-strict `<=` and rolls forward by exactly one
unit (one month, one year, one day, one day respectively) when it holds; in
particular a naive occurrence exactly equal to `ts` counts as already past
and forces the roll. -/
theorem latent_rules_strict_boundary :
    (∀ (ts : DateTime) (d : Nat),
       ruleLatentDOM ts { day := some d } =
         some (Time.ofDate (if (setDay ts d).le ts then addMonths1 (setDay ts d)
                            else setDay ts d))) ∧
    (∀ (ts : DateTime) (d : Nat), setDay ts d = ts →
       ruleLatentDOM ts { day := some d } = some (Time.ofDate (addMonths1 ts))) ∧
    (∀ (ts : DateTime) (m d : Nat),
       ruleLatentDOY ts { month := some m, day := some d } =
         some (Time.ofDate (if (setMonthDay ts m d).le ts then addYears1 (setMonthDay ts m d)
                            else setMonthDay ts m d))) ∧
    (∀ (ts : DateTime) (m d : Nat), setMonthDay ts m d = ts →
       ruleLatentDOY ts { month := some m, day := some d } =
         some (Time.ofDate (addYears1 ts))) ∧
    (∀ (ts : DateTime) (h : Nat) (mi : Option Nat),
       ruleLatentTOD ts { hour := some h, minute := mi } =
         some (Time.ofDateTime
           (if (setHourMinute ts h (mi.getD 0)).le ts
            then addDays (setHourMinute ts h (mi.getD 0)) 1
            else setHourMinute ts h (mi.getD 0)))) ∧
    (∀ (ts : DateTime) (h : Nat) (mi : Option Nat),
       setHourMinute ts h (mi.getD 0) = ts →
       ruleLatentTOD ts { hour := some h, minute := mi } =
         some (Time.ofDateTime (addDays ts 1))) ∧
    (∀ (ts : DateTime) (p : String) (hf ht : Nat),
       pod_hours.lookup p = some (hf, ht) →
       ruleLatentPOD ts { POD := some p } =
         some { year := some ((if (setHour ts hf).le ts then addDays (setHour ts hf) 1
                               else setHour ts hf)).year,
                month := some ((if (setHour ts hf).le ts then addDays (setHour ts hf) 1
                                else setHour ts hf)).month,
                day := some ((if (setHour ts hf).le ts then addDays (setHour ts hf) 1
                              else setHour ts hf)).day,
                POD := some p }) ∧
    (∀ (ts : DateTime) (p : String) (hf ht : Nat),
       pod_hours.lookup p = some (hf, ht) → setHour ts hf = ts →
       ruleLatentPOD ts { POD := some p } =
         some { year := some (addDays ts 1).year, month := some (addDays ts 1).month,
                day := some (addDays ts 1).day, POD := some p }) := by
  refine ⟨fun ts d => rfl, ?_, fun ts m d => rfl, ?_, fun ts h mi => rfl, ?_, ?_, ?_⟩
  · intro ts d h
    have h0 : ruleLatentDOM ts { day := some d } =
        some (Time.ofDate (if (setDay ts d).le ts then addMonths1 (setDay ts d)
                           else setDay ts d)) := rfl
    rw [h0, h, if_pos (DateTime.le_refl ts)]
  · intro ts m d h
    have h0 : ruleLatentDOY ts { month := some m, day := some d } =
        some (Time.ofDate (if (setMonthDay ts m d).le ts then addYears1 (setMonthDay ts m d)
                           else setMonthDay ts m d)) := rfl
    rw [h0, h, if_pos (DateTime.le_refl ts)]
  · intro ts h mi heq
    have h0 : ruleLatentTOD ts { hour := some h, minute := mi } =
        some (Time.ofDateTime
          (if (setHourMinute ts h (mi.getD 0)).le ts
           then addDays (setHourMinute ts h (mi.getD 0)) 1
           else setHourMinute ts h (mi.getD 0))) := rfl
    rw [h0, heq, if_pos (DateTime.le_refl ts)]
  · intro ts p hf ht hl
    simp only [ruleLatentPOD]
    rw [hl]
  · intro ts p hf ht hl heq
    simp only [ruleLatentPOD]
    rw [hl]
    dsimp only
    rw [heq, if_pos (DateTime.le_refl ts)]

/-- C2 witness: with reference instant 2022-03-10 12:00, the latent time of
day 12:00 is exactly equal to the reference, and the rule rolls one full day
forward to 2022-03-11 12:00. -/
theorem latent_rules_strict_boundary_witness :
    setHourMinute ⟨2022, 3, 10, 12, 0⟩ 12 ((some 0).getD 0) = ⟨2022, 3, 10, 12, 0⟩ ∧
      ruleLatentTOD ⟨2022, 3, 10, 12, 0⟩ { hour := some 12, minute := some 0 } =
        some (Time.ofDateTime (addDays ⟨2022, 3, 10, 12, 0⟩ 1)) :=
  ⟨by decide,
   latent_rules_strict_boundary.2.2.2.2.2.1 ⟨2022, 3, 10, 12, 0⟩ 12 (some 0) (by decide)⟩

/-- C3 counterexample: with reference instant 2022-03-10 (a Thursday),
`ruleNextDOW` applied to a Monday entity yields 2022-03-21, not the claimed
2022-03-14. -/
theorem ruleNextDOW_not_mar14 :
    ruleNextDOW ⟨2022, 3, 10, 0, 0⟩ { DOW := some 0 } =
      some { year := some 2022, month := some 3, day := some 21 } ∧
    ruleNextDOW ⟨2022, 3, 10, 0, 0⟩ { DOW := some 0 } ≠
      some { year := some 2022, month := some 3, day := some 14 } := by
  decide

/-- C3 (amended): with reference instant 2022-03-10 (a Thursday),
`ruleNextDOW` on a Monday entity yields `Time(year=2022, month=3, day=21)`:
`relativedelta(weekday=0, weeks=1)` first adds the seven days (giving
2022-03-17, a Thursday) and then advances to the next Monday at or after
that date. -/
theorem ruleNextDOW_mar21 :
    ruleNextDOW ⟨2022, 3, 10, 0, 0⟩ { DOW := some 0 } =
      some { year := some 2022, month := some 3, day := some 21 } ∧
    addDays ⟨2022, 3, 10, 0, 0⟩ 7 = ⟨2022, 3, 17, 0, 0⟩ ∧
    nextWeekday ⟨2022, 3, 17, 0, 0⟩ 0 = ⟨2022, 3, 21, 0, 0⟩ := by
  decide

/-- C10: combining a time of day with a part of day is order-independent —
`rulePODTOD` returns exactly what `ruleTODPOD` returns on the swapped
arguments (it delegates to it). -/
theorem rulePODTOD_commutes (ts : DateTime) (pod tod : Time) :
    rulePODTOD ts pod tod = ruleTODPOD ts tod pod := rfl

/-- C9: `ruleTODTOD`'s equal-hour guards are swapped relative to the intent
recorded in its own comments: the pair 6:30 – 6 (left endpoint later) is
accepted as an `Interval`, while the strictly ordered pair 6 – 6:30 is
rejected. -/
theorem ruleTODTOD_order_bug :
    ruleTODTOD ⟨2022, 3, 10, 0, 0⟩ { hour := some 6, minute := some 30 }
        { hour := some 6 } =
      some { t_from := some { hour := some 6, minute := some 30 },
             t_to := some { hour := some 6 } } ∧
    ruleTODTOD ⟨2022, 3, 10, 0, 0⟩ { hour := some 6 }
        { hour := some 6, minute := some 30 } = none := by
  decide

/-- C6 counterexample: the "5 - 6pm" derivation keeps the left endpoint at
hour 5 — the resulting interval is not `Interval(Time(hour=17), Time(hour=18))`. -/
theorem ruleTODTOD_no_propagation_cex :
    ruleTODTOD ⟨2022, 3, 10, 0, 0⟩ { hour := some 5, minute := some 0 }
        { hour := some 18, minute := some 0 } =
      some { t_from := some { hour := some 5, minute := some 0 },
             t_to := some { hour := some 18, minute := some 0 } } ∧
    ruleTODTOD ⟨2022, 3, 10, 0, 0⟩ { hour := some 5, minute := some 0 }
        { hour := some 18, minute := some 0 } ≠
      some { t_from := some { hour := some 17, minute := some 0 },
             t_to := some { hour := some 18, minute := some 0 } } ∧
    ruleTODTOD ⟨2022, 3, 10, 0, 0⟩ { hour := some 5, minute := some 0 }
        { hour := some 18, minute := some 0 } ≠
      some { t_from := some { hour := some 17 },
             t_to := some { hour := some 18, minute := some 0 } } := by
  decide

/-- C6 (amended): for "5 - 6pm", `ruleHHMM` builds `Time(hour=18, minute=0)`
for "6pm" and `Time(hour=5, minute=0)` for the bare "5"; `ruleTODTOD` joins
any two endpoints into an `Interval` without altering either one, so the
left endpoint keeps hour 5 (no backward am/pm propagation) and the result is
`Interval(t_from=Time(hour=5, minute=0), t_to=Time(hour=18, minute=0))`. -/
theorem ruleTODTOD_no_propagation :
    (∀ (ts : DateTime) (t1 t2 : Time) (i : Interval),
       ruleTODTOD ts t1 t2 = some i → i = { t_from := some t1, t_to := some t2 }) ∧
    ruleHHMM ⟨2022, 3, 10, 0, 0⟩ 6 none (some "pm") =
      some { hour := some 18, minute := some 0 } ∧
    ruleHHMM ⟨2022, 3, 10, 0, 0⟩ 5 none none =
      some { hour := some 5, minute := some 0 } ∧
    ruleTODTOD ⟨2022, 3, 10, 0, 0⟩ { hour := some 5, minute := some 0 }
        { hour := some 18, minute := some 0 } =
      some { t_from := some { hour := some 5, minute := some 0 },
             t_to := some { hour := some 18, minute := some 0 } } := by
  refine ⟨?_, by decide, by decide, by decide⟩
  intro ts t1 t2 i h
  unfold ruleTODTOD at h
  repeat' split at h
  all_goals
    first
      | exact Option.noConfusion h
      | exact (Option.some.inj h).symm

/-- C6 witness: the endpoint-preservation part of
`ruleTODTOD_no_propagation` applied at the concrete "5 - 6pm" endpoints. -/
theorem ruleTODTOD_no_propagation_witness :
    ({ t_from := some { hour := some 5, minute := some 0 },
       t_to := some { hour := some 18, minute := some 0 } } : Interval) =
      { t_from := some { hour := some 5, minute := some 0 },
        t_to := some { hour := some 18, minute := some 0 } } :=
  ruleTODTOD_no_propagation.1 ⟨2022, 3, 10, 0, 0⟩
    { hour := some 5, minute := some 0 } { hour := some 18, minute := some 0 }
    { t_from := some { hour := some 5, minute := some 0 },
      t_to := some { hour := some 18, minute := some 0 } } (by decide)

/-- C5: `ruleTODPOD` returns `None` exactly when the hour exceeds 12 and the
part-of-day tag contains `beforenoon` or `morning`; when the hour is at most
12 and the tag contains `afternoon`, `evening` or `night` the hour is raised
by 12; in every other case the hour is unchanged — and the minute is always
`tod.minute`. -/
theorem ruleTODPOD_cases (ts : DateTime) (tod pod : Time) (h : Nat) (p : String)
    (hh : tod.hour = some h) (hp : pod.POD = some p) :
    (ruleTODPOD ts tod pod = none ↔
      (12 < h ∧ (strContains p "beforenoon" ∨ strContains p "morning"))) ∧
    (h ≤ 12 ∧ (strContains p "afternoon" ∨ strContains p "evening" ∨ strContains p "night") →
      ruleTODPOD ts tod pod = some { hour := some (h + 12), minute := tod.minute }) ∧
    (¬(h ≤ 12 ∧ (strContains p "afternoon" ∨ strContains p "evening" ∨ strContains p "night")) →
     ¬(12 < h ∧ (strContains p "beforenoon" ∨ strContains p "morning")) →
      ruleTODPOD ts tod pod = some { hour := some h, minute := tod.minute }) := by
  unfold ruleTODPOD
  rw [hh, hp]
  dsimp only
  by_cases c1 : h ≤ 12 ∧ (strContains p "afternoon" = true ∨ strContains p "evening" = true ∨
      strContains p "night" = true)
  · rw [if_pos c1]
    refine ⟨⟨fun hx => absurd hx (by simp), fun hx => absurd hx.1 (by omega)⟩,
            fun _ => rfl, fun hc _ => absurd c1 hc⟩
  · rw [if_neg c1]
    by_cases c2 : 12 < h ∧ (strContains p "beforenoon" = true ∨ strContains p "morning" = true)
    · rw [if_pos c2]
      exact ⟨⟨fun _ => c2, fun _ => rfl⟩, fun hc => absurd hc c1, fun _ hc => absurd c2 hc⟩
    · rw [if_neg c2]
      exact ⟨⟨fun hx => absurd hx (by simp), fun hx => absurd hx c2⟩,
             fun hc => absurd hc c1, fun _ _ => rfl⟩

/-- C5 witness: `ruleTODPOD_cases` at hour 17 with tag "morning" — the first
component shows the combination is rejected (the hour exceeds 12 and the tag
contains "morning"). -/
theorem ruleTODPOD_cases_witness :
    (ruleTODPOD ⟨2022, 3, 10, 0, 0⟩ { hour := some 17 } { POD := some "morning" } = none ↔
      (12 < 17 ∧ (strContains "morning" "beforenoon" ∨ strContains "morning" "morning"))) ∧
    (17 ≤ 12 ∧ (strContains "morning" "afternoon" ∨ strContains "morning" "evening" ∨
        strContains "morning" "night") →
      ruleTODPOD ⟨2022, 3, 10, 0, 0⟩ { hour := some 17 } { POD := some "morning" } =
        some { hour := some (17 + 12), minute := none }) ∧
    (¬(17 ≤ 12 ∧ (strContains "morning" "afternoon" ∨ strContains "morning" "evening" ∨
        strContains "morning" "night")) →
     ¬(12 < 17 ∧ (strContains "morning" "beforenoon" ∨ strContains "morning" "morning")) →
      ruleTODPOD ⟨2022, 3, 10, 0, 0⟩ { hour := some 17 } { POD := some "morning" } =
        some { hour := some 17, minute := none }) :=
  ruleTODPOD_cases ⟨2022, 3, 10, 0, 0⟩ { hour := some 17 } { POD := some "morning" }
    17 "morning" rfl rfl

/-- A string starting with `p` does not start with `a`. -/
theorem startsWith_p_not_a (s : String) (h : strStartsWith s "p" = true) :
    strStartsWith s "a" = false := by
  unfold strStartsWith at h ⊢
  have hp : ("p" : String).data = ['p'] := rfl
  have ha : ("a" : String).data = ['a'] := rfl
  rw [hp] at h
  rw [ha]
  cases hd : s.data with
  | nil => rw [hd] at h; exact absurd h (by decide)
  | cons c cs =>
    rw [hd] at h
    simp only [listIsPre, Bool.and_eq_true, beq_iff_eq] at h
    rw [h.1]
    simp [listIsPre]

/-- C7: `ruleHHMM` never rejects a match.  With an am/pm marker present and
an hour above 12 the marker is ignored and the literal hour and minute are
returned; a pm marker with hour at most 12 adds 12 to the hour; an am marker
with hour at most 12 leaves the literal hour. -/
theorem ruleHHMM_total (ts : DateTime) (hour : Nat) (minute : Option Nat)
    (ampm : Option String) :
    (ruleHHMM ts hour minute ampm).isSome = true ∧
    (∀ s, ampm = some s → (strStartsWith s "a" ∨ strStartsWith s "p") → 12 < hour →
       ruleHHMM ts hour minute ampm =
         some { hour := some hour, minute := some (minute.getD 0) }) ∧
    (∀ s, ampm = some s → strStartsWith s "p" → hour ≤ 12 →
       ruleHHMM ts hour minute ampm =
         some { hour := some (hour + 12), minute := some (minute.getD 0) }) ∧
    (∀ s, ampm = some s → strStartsWith s "a" → hour ≤ 12 →
       ruleHHMM ts hour minute ampm =
         some { hour := some hour, minute := some (minute.getD 0) }) := by
  refine ⟨?_, ?_, ?_, ?_⟩
  · unfold ruleHHMM
    rcases ampm with _ | s
    · rfl
    · dsimp only
      split
      · rfl
      · split <;> rfl
  · intro s hs hm hhour
    subst hs
    unfold ruleHHMM
    dsimp only
    rw [if_neg (fun hc => absurd hc.2 (by omega)),
        if_neg (fun hc => absurd hc.2 (by omega))]
  · intro s hs hpm hhour
    subst hs
    unfold ruleHHMM
    dsimp only
    have hna := startsWith_p_not_a s hpm
    rw [if_neg (fun hc => absurd hc.1 (by rw [hna]; exact Bool.false_ne_true)),
        if_pos ⟨hpm, hhour⟩]
  · intro s hs ham hhour
    subst hs
    unfold ruleHHMM
    dsimp only
    rw [if_pos ⟨ham, hhour⟩]

/-- C7 witness: "5pm" and "13:30am" through `ruleHHMM`, discharging the
hypotheses of `ruleHHMM_total` at concrete inputs. -/
theorem ruleHHMM_total_witness :
    ruleHHMM ⟨2022, 3, 10, 0, 0⟩ 5 none (some "pm") =
      some { hour := some 17, minute := some 0 } ∧
    ruleHHMM ⟨2022, 3, 10, 0, 0⟩ 13 (some 30) (some "am") =
      some { hour := some 13, minute := some 30 } :=
  ⟨(ruleHHMM_total ⟨2022, 3, 10, 0, 0⟩ 5 none (some "pm")).2.2.1 "pm" rfl
     (by decide) (by decide),
   (ruleHHMM_total ⟨2022, 3, 10, 0, 0⟩ 13 (some 30) (some "am")).2.1 "am" rfl
     (Or.inl (by decide)) (by decide)⟩

/-- C4: `score` is the model log-odds plus the coverage penalty
`log(covered_chars / len(txt))`, where `covered_chars` is the last
production's `mend` minus the first production's `mstart`; the model term is
a function of the rule-identifier sequence alone (the feature extractor
ignores `txt` and `ts`); `score_final` is identical except that its penalty
is `log(len(final production) / len(txt))`. -/
theorem scorer_decomposition :
    (∀ (M : NaiveBayesScorer) (txt : String) (ts : DateTime) (pp : PartialParse),
       M.score txt ts pp =
         ((M.predictLogProba pp.rules).2 - (M.predictLogProba pp.rules).1) +
           Real.log ((coveredChars pp : ℝ) / (txt.length : ℝ))) ∧
    (∀ (M : NaiveBayesScorer) (txt : String) (ts : DateTime) (pp : PartialParse)
       (p : FinalProd),
       M.score_final txt ts pp p =
         ((M.predictLogProba pp.rules).2 - (M.predictLogProba pp.rules).1) +
           Real.log ((FinalProd.len p : ℝ) / (txt.length : ℝ))) ∧
    (∀ (txt txt2 : String) (ts ts2 : DateTime) (pp : PartialParse),
       featureExtractor txt ts pp = featureExtractor txt2 ts2 pp) ∧
    (∀ pp : PartialParse,
       coveredChars pp =
         (pp.prod.getLastD ⟨0, 0⟩).mend - (pp.prod.headD ⟨0, 0⟩).mstart) :=
  ⟨fun M txt ts pp => rfl, fun M txt ts pp p => rfl,
   fun txt txt2 ts ts2 pp => rfl, fun pp => rfl⟩

/-- The coverage penalty is monotone in the covered length. -/
theorem log_cover_mono (a b L : Nat) (ha : 0 < a) (hab : a ≤ b) (hL : 0 < L) :
    Real.log ((a : ℝ) / (L : ℝ)) ≤ Real.log ((b : ℝ) / (L : ℝ)) := by
  have hL' : (0 : ℝ) < (L : ℝ) := by exact_mod_cast hL
  have ha' : (0 : ℝ) < (a : ℝ) := by exact_mod_cast ha
  have hab' : (a : ℝ) ≤ (b : ℝ) := by exact_mod_cast hab
  have hpos : (0 : ℝ) < (a : ℝ) / (L : ℝ) := div_pos ha' hL'
  exact Real.log_le_log hpos ((div_le_div_iff_of_pos_right hL').mpr hab')

/-- C8: for a fixed rule sequence and fixed text, `score` and `score_final`
are monotonically non-decreasing in the coverage: larger positive covered
span (resp. larger positive final-production length) gives an equal or
higher score. -/
theorem scorer_monotone :
    (∀ (M : NaiveBayesScorer) (txt : String) (ts ts2 : DateTime)
       (pp pp2 : PartialParse),
       pp.rules = pp2.rules → 0 < coveredChars pp →
       coveredChars pp ≤ coveredChars pp2 → 0 < txt.length →
       M.score txt ts pp ≤ M.score txt ts2 pp2) ∧
    (∀ (M : NaiveBayesScorer) (txt : String) (ts ts2 : DateTime)
       (pp pp2 : PartialParse) (p p2 : FinalProd),
       pp.rules = pp2.rules → 0 < FinalProd.len p →
       FinalProd.len p ≤ FinalProd.len p2 → 0 < txt.length →
       M.score_final txt ts pp p ≤ M.score_final txt ts2 pp2 p2) := by
  constructor
  · intro M txt ts ts2 pp pp2 hr h1 h2 h3
    unfold NaiveBayesScorer.score
    dsimp only [featureExtractor]
    rw [hr]
    exact add_le_add_left (log_cover_mono _ _ _ h1 h2 h3) _
  · intro M txt ts ts2 pp pp2 p p2 hr h1 h2 h3
    unfold NaiveBayesScorer.score_final
    dsimp only [featureExtractor]
    rw [hr]
    exact add_le_add_left (log_cover_mono _ _ _ h1 h2 h3) _

/-- C8 witness: two parses with the same rule sequence over the two-character
text "ab", one covering one character and one covering two. -/
theorem scorer_monotone_witness :
    (⟨[⟨0, 1⟩], ["r"]⟩ : PartialParse).rules = (⟨[⟨0, 2⟩], ["r"]⟩ : PartialParse).rules ∧
    0 < coveredChars ⟨[⟨0, 1⟩], ["r"]⟩ ∧
    coveredChars ⟨[⟨0, 1⟩], ["r"]⟩ ≤ coveredChars ⟨[⟨0, 2⟩], ["r"]⟩ ∧
    0 < ("ab" : String).length ∧
    NaiveBayesScorer.score ⟨fun _ => (0, 0)⟩ "ab" ⟨2022, 3, 10, 0, 0⟩ ⟨[⟨0, 1⟩], ["r"]⟩ ≤
      NaiveBayesScorer.score ⟨fun _ => (0, 0)⟩ "ab" ⟨2022, 3, 10, 0, 0⟩ ⟨[⟨0, 2⟩], ["r"]⟩ :=
  ⟨rfl, by decide, by decide, by decide,
   scorer_monotone.1 ⟨fun _ => (0, 0)⟩ "ab" ⟨2022, 3, 10, 0, 0⟩ ⟨2022, 3, 10, 0, 0⟩
     ⟨[⟨0, 1⟩], ["r"]⟩ ⟨[⟨0, 2⟩], ["r"]⟩ rfl (by decide) (by decide) (by decide)⟩

end Ctparse
